import Mathlib

/-!
# Verification of the BeamNG archive-tooling pipeline

Shallow embedding of the string/selection/truncation logic of the BeamNG
batch utilities (`beamng_zip_extract_v3_popup.py`, `beamng_zip_renamer.py`,
`beamng_zip_edit_kv.py`, `extractallfromzips.py`).  Strings are modelled as
`List Char`, byte payloads as `List Nat`, raw metadata documents as an
inductive `Json` value.  External standard-library facilities (`json.loads`,
`json.dumps`, `datetime.fromisoformat`) are parameters of the embedded
functions; everything that the repository itself implements is translated
directly from the source.
-/

namespace BeamNG

/-- Characters matched by Python's regex class `\s` (and by `str.strip()`),
restricted to the code points the tools ever meet; includes the ASCII
whitespace and the common Unicode whitespace block. -/
def pyWs (c : Char) : Bool :=
  c = ' ' || c = '\t' || c = '\n' || c = '\r' || c = '\x0b' || c = '\x0c' ||
  c = '\x1c' || c = '\x1d' || c = '\x1e' || c = '\x1f' || c = '\x85' ||
  c = '\xa0' || c = ' ' || c = ' ' || c = ' ' || c = ' ' ||
  c = ' ' || c = ' ' || c = ' ' || c = ' ' || c = ' ' ||
  c = ' ' || c = ' ' || c = ' ' || c = ' ' || c = ' ' ||
  c = ' ' || c = ' ' || c = '　'

/-- `str.lower()` (ASCII range; the tools compare ASCII path segments). -/
def lowerL (s : List Char) : List Char := s.map Char.toLower

/-- `path.replace("\\", "/")`. -/
def normSlash (p : List Char) : List Char :=
  p.map (fun c => if c = '\\' then '/' else c)

/-- `path.lstrip("/")`. -/
def lstripSlash (p : List Char) : List Char := p.dropWhile (fun c => c = '/')

/-- `os.path.basename` (posix: the part after the last `/`). -/
def basenameL (p : List Char) : List Char :=
  (p.reverse.takeWhile (fun c => c ≠ '/')).reverse

/-- `str.strip()`. -/
def stripWs (s : List Char) : List Char :=
  ((s.dropWhile pyWs).reverse.dropWhile pyWs).reverse

/-- One pass of `re.sub(r"\s+", " ", s)`: every maximal whitespace run
becomes a single space.  The flag records whether the previous character
belonged to a whitespace run. -/
def collapseWs : Bool → List Char → List Char
  | _, [] => []
  | prevWs, c :: rest =>
    if pyWs c then
      if prevWs then collapseWs true rest else ' ' :: collapseWs true rest
    else c :: collapseWs false rest

/-- The whitespace normalisation of `sanitize_cell`
(`beamng_zip_extract_v3_popup.py` lines 227-228): replace CR/LF/TAB by
spaces, collapse whitespace runs, strip. -/
def cleanCollapse (s : List Char) : List Char :=
  stripWs (collapseWs false
    (s.map (fun c => if c = '\r' || c = '\n' || c = '\t' then ' ' else c)))

/-- Embedding of `sanitize_cell` (`beamng_zip_extract_v3_popup.py` lines
224-234).  Returns `(cell, truncated, original collapsed value, its
length)`. -/
def sanitize_cell (s : List Char) (max_len : Nat) :
    List Char × Bool × List Char × Nat :=
  let t := cleanCollapse s
  if max_len ≠ 0 ∧ t.length > max_len then
    (t.take (max_len - 1) ++ ['…'], true, t, t.length)
  else (t, false, t, t.length)

/-- `top_level_from_internal` (`beamng_zip_extract_v3_popup.py` lines
315-317): slash-normalise, strip leading slashes, lowercase the first
path segment. -/
def top_level_from_internal (p : List Char) : List Char :=
  lowerL ((lstripSlash (normSlash p)).takeWhile (fun c => c ≠ '/'))

/-- `matches_ui_app_json` (`beamng_zip_extract_v3_popup.py` lines 319-324):
at least five slash-separated components, the first three being
`ui/modules/apps` (case-insensitive), and the last component `app.json`
(case-insensitive). -/
def matches_ui_app_json (path : List Char) : Bool :=
  let p := lstripSlash (normSlash path)
  match List.splitOn '/' p with
  | a :: b :: c :: _ :: e :: rest =>
    decide (lowerL a = ("ui").data) && decide (lowerL b = ("modules").data) &&
    decide (lowerL c = ("apps").data) &&
    decide (lowerL ((e :: rest).getLast (List.cons_ne_nil e rest)) =
      ("app.json").data)
  | _ => false

/-- `collect_json_candidates` (`beamng_zip_extract_v3_popup.py` lines
410-425): walk the archive entry names, skip empty and excluded paths, and
gather `info.json` paths and UI `app.json` paths. -/
def collect_json_candidates (entries : List (List Char))
    (exclude : List (List Char)) : List (List Char) × List (List Char) :=
  match entries with
  | [] => ([], [])
  | nm :: rest =>
    let r := collect_json_candidates rest exclude
    let ip := lstripSlash (normSlash nm)
    if ip = [] then r
    else if exclude.contains (top_level_from_internal ip) then r
    else if lowerL (basenameL ip) = ("info.json").data then (ip :: r.1, r.2)
    else if matches_ui_app_json ip then (r.1, ip :: r.2)
    else r

/-- `categorize_info_paths` (`beamng_zip_extract_v3_popup.py` lines
427-439): split the `info.json` paths into the `levels`, `vehicles`,
`mod_info` and other compartments. -/
def categorize_info_paths (paths : List (List Char)) :
    List (List Char) × List (List Char) × List (List Char) ×
      List (List Char) :=
  match paths with
  | [] => ([], [], [], [])
  | p :: rest =>
    let r := categorize_info_paths rest
    let top := top_level_from_internal p
    if top = ("levels").data then (p :: r.1, r.2.1, r.2.2.1, r.2.2.2)
    else if top = ("vehicles").data then (r.1, p :: r.2.1, r.2.2.1, r.2.2.2)
    else if top = ("mod_info").data then (r.1, r.2.1, p :: r.2.2.1, r.2.2.2)
    else (r.1, r.2.1, r.2.2.1, p :: r.2.2.2)

/-- `select_jsons` (`beamng_zip_extract_v3_popup.py` lines 441-452): the
layered selection rule.  Returns `(rule tag, selected info paths, selected
app paths)`. -/
def select_jsons (info_paths app_paths : List (List Char)) :
    List Char × List (List Char) × List (List Char) :=
  let c := categorize_info_paths info_paths
  if c.1 ≠ [] then (("levels").data, c.1 ++ c.2.2.1, [])
  else if c.2.1 ≠ [] then (("vehicles").data, c.2.1 ++ c.2.2.1, [])
  else if app_paths ≠ [] then (("ui").data, c.2.2.1, app_paths)
  else if c.2.2.1 ≠ [] then (("mod_info").data, c.2.2.1, [])
  else (("no-json-file").data, [], [])

/-- `os.path.splitext`: split off the extension at the last dot of the last
path component, unless that component consists only of leading dots up to
that dot.  Returns `(root, ext)`. -/
def splitext (p : List Char) : List Char × List Char :=
  let r := p.reverse
  let pre := r.takeWhile (fun c => !(c = '.' || c = '/'))
  let rest := r.dropWhile (fun c => !(c = '.' || c = '/'))
  if rest.head? = some '.' then
    if (rest.tail.takeWhile (fun d => d ≠ '/')).any (fun d => d ≠ '.') then
      (rest.tail.reverse, '.' :: pre.reverse)
    else (p, [])
  else (p, [])

/-- Decimal digits of a natural number, as characters. -/
def natDigits (n : Nat) : List Char := Nat.toDigits 10 n

/-- The n-th conflict-resolution candidate `f"\x7bbase\x7d (\x7bn\x7d)\x7bext\x7d"`
probed by `next_nonconflicting` (`beamng_zip_renamer.py` line 153). -/
def conflictCand (path : List Char) (n : Nat) : List Char :=
  (splitext path).1 ++ (" (").data ++ natDigits n ++ (")").data ++
    (splitext path).2

/-- The probing loop of `next_nonconflicting` (`beamng_zip_renamer.py`
lines 151-156).  The Python loop is unbounded (`while True`); the embedding
carries explicit fuel, returning `none` if the fuel is exhausted. -/
def nextAux (ex : List (List Char)) (path : List Char) :
    Nat → Nat → Option (List Char)
  | _, 0 => none
  | n, fuel + 1 =>
    if conflictCand path n ∈ ex then nextAux ex path (n + 1) fuel
    else some (conflictCand path n)

/-- `next_nonconflicting` (`beamng_zip_renamer.py` lines 147-156);
`ex` is the set of existing paths (`os.path.exists`). -/
def next_nonconflicting (ex : List (List Char)) (path : List Char)
    (fuel : Nat) : Option (List Char) :=
  if path ∈ ex then nextAux ex path 2 fuel else some path

/-- An archive member: entry name plus payload; `data = none` models an
entry whose bytes cannot be read (`zf.read` raising). -/
structure ZEntry where
  name : List Char
  data : Option (List Nat)
deriving DecidableEq

/-- The state of one path on disk: missing, an unopenable file, or a
readable archive. -/
inductive FileState where
  | absent
  | corrupt
  | zip (es : List ZEntry)
deriving DecidableEq

/-- A filesystem: file state per path. -/
def FS : Type := List Char → FileState

/-- Point update of a filesystem. -/
def fsSet (fs : FS) (p : List Char) (v : FileState) : FS :=
  fun q => if q = p then v else fs q

/-- Per-archive outcome recorded by the editor's log. -/
inductive EditStatus where
  | skip
  | dryRun
  | edited
  | error
deriving DecidableEq

/-- `validate_zip` (`beamng_zip_edit_kv.py` lines 158-172): fail when the
archive cannot be opened, is empty, or one of up to the first five entries
cannot be read. -/
def validate_zip : FileState → Bool × List Char
  | .absent => (false, ("open failed").data)
  | .corrupt => (false, ("open failed").data)
  | .zip es =>
    if es = [] then (false, ("empty zip").data)
    else
      match (es.take 5).find? (fun e => e.data.isNone) with
      | some e => (false, ("failed to read entry ").data ++ e.name)
      | none => (true, [])

/-- `list_infos` (`beamng_zip_edit_kv.py` lines 112-117): slash-normalised
paths of entries whose base filename is `info.json` (case-insensitive). -/
def list_infos (es : List ZEntry) : List (List Char) :=
  es.filterMap (fun e =>
    if lowerL (basenameL e.name) = ("info.json").data then
      some (normSlash e.name)
    else none)

/-- `p.split("/")[0].lower()` as used by `filter_scope`. -/
def fsTop (p : List Char) : List Char :=
  lowerL (p.takeWhile (fun c => c ≠ '/'))

/-- Order-preserving de-duplication with a `seen` accumulator (the `seen`
set at the end of `filter_scope`). -/
def dedupGo (seen : List (List Char)) : List (List Char) → List (List Char)
  | [] => []
  | p :: rest =>
    if seen.contains p then dedupGo seen rest
    else p :: dedupGo (p :: seen) rest

/-- Order-preserving de-duplication (the `seen` set at the end of
`filter_scope`). -/
def dedupKeepFirst (l : List (List Char)) : List (List Char) := dedupGo [] l

/-- `filter_scope` (`beamng_zip_edit_kv.py` lines 119-145). -/
def filter_scope (paths : List (List Char)) (scope : List (List Char))
    (prefer_primary include_mod_info : Bool) : List (List Char) :=
  let vehicles := paths.filter (fun p => fsTop p = ("vehicles").data)
  let levels := paths.filter (fun p => fsTop p = ("levels").data)
  let modinfo := paths.filter (fun p => fsTop p = ("mod_info").data)
  let addIf := fun (ps : List (List Char)) (allowed : Bool) =>
    if allowed then ps.filter (fun p => scope.contains (fsTop p)) else []
  let chosen :=
    if prefer_primary && (!vehicles.isEmpty || !levels.isEmpty) then
      addIf (if !vehicles.isEmpty then vehicles else levels) true ++
      (if include_mod_info && scope.contains (("mod_info").data) then modinfo
       else [])
    else
      addIf vehicles (scope.contains (("vehicles").data)) ++
      addIf levels (scope.contains (("levels").data)) ++
      (if include_mod_info && scope.contains (("mod_info").data) then modinfo
       else if scope.contains (("mod_info").data) then modinfo else [])
  dedupKeepFirst chosen

/-- `zf2.open(ip).read()` for one target path: `true` when the lookup or
the read raises (entry missing under that exact name, or unreadable). -/
def targetReadFails (es : List ZEntry) (targets : List (List Char)) : Bool :=
  targets.any (fun ip =>
    match es.find? (fun e => e.name = ip) with
    | none => true
    | some e => e.data.isNone)

/-- The bytes of the entry named `ip` (defined when reads succeed). -/
def readEntryData (es : List ZEntry) (ip : List Char) : List Nat :=
  match es.find? (fun e => e.name = ip) with
  | some e => e.data.getD []
  | none => []

/-- The in-place swap of `beamng_zip_edit_kv.py` lines 246-251: remove a
stale `.bak` if present, move the original to `.bak`, move the validated
`.edited.zip` into the original's place. -/
def swapInPlace (fs1 : FS) (zp ez : List Char) : FS :=
  let bak := zp ++ (".bak").data
  let fs2 := if fs1 bak = .absent then fs1 else fsSet fs1 bak .absent
  let fs3 := fsSet (fsSet fs2 bak (fs2 zp)) zp .absent
  fsSet (fsSet fs3 zp (fs3 ez)) ez .absent

/-- One iteration of the editor's per-archive loop with `--apply
--in-place` (`beamng_zip_edit_kv.py` lines 215-254).  `editDoc` abstracts
the document rewrite of lines 233-238 (`safe_load_json`, the field
operations, `json.dumps`); `buildFile` abstracts `build_edited_zip` plus
the zipfile serialisation of lines 147-156 and 239 — it is the file state
that the build leaves at the `.edited.zip` path (possibly `corrupt` when
the write goes wrong).  Returns the final filesystem and the logged
status. -/
def editStepInPlace (editDoc : List Nat → List Nat)
    (buildFile : List ZEntry → List (List Char × List Nat) → FileState)
    (scope : List (List Char)) (prefer_primary include_mod_info : Bool)
    (fs : FS) (zp : List Char) : FS × EditStatus :=
  match fs zp with
  | .absent => (fs, .error)
  | .corrupt => (fs, .error)
  | .zip es =>
    let targets := filter_scope (list_infos es) scope prefer_primary
      include_mod_info
    if targets = [] then (fs, .skip)
    else if targetReadFails es targets then (fs, .error)
    else
      let edits := targets.map (fun ip => (ip, editDoc (readEntryData es ip)))
      let ez := (splitext zp).1 ++ (".edited.zip").data
      let fs1 := fsSet fs ez (buildFile es edits)
      if (validate_zip (fs1 ez)).1 then (swapInPlace fs1 zp ez, .edited)
      else (fs1, .error)

/-- Concrete archive path for witnessing the in-place editor. -/
def c2zp : List Char := ("a.zip").data

/-- Concrete archive content for witnessing the in-place editor. -/
def c2es : List ZEntry := [⟨("vehicles/x/info.json").data, some [1, 2]⟩]

/-- Concrete filesystem holding exactly that archive. -/
def c2fs : FS := fun p => if p = c2zp then FileState.zip c2es else .absent

/-- The editor's full scope set (`--scope all`). -/
def c2scope : List (List Char) :=
  [("vehicles").data, ("levels").data, ("mod_info").data]

/-- Concrete entry list for witnessing the selection engine. -/
def c3Entries : List (List Char) :=
  [("levels/alpha/info.json").data, ("vehicles/bob/info.json").data,
   ("mod_info/info.json").data]

/-- Concrete target path for witnessing the conflict resolver. -/
def c8p : List Char := ("m.zip").data

/-- Concrete set of existing paths: the target and its first probe. -/
def c8ex : List (List Char) := [c8p, conflictCand c8p 2]

/-- Parsed JSON-like documents (the values `json.loads` can produce). -/
inductive Json where
  | null
  | bool (b : Bool)
  | num (q : ℚ)
  | str (s : List Char)
  | arr (elems : List Json)
  | obj (kvs : List (List Char × Json))

/-- The BOM strip of `cleanup_json_blob`: when the text starts with
U+FEFF, `lstrip` removes every leading U+FEFF. -/
def stripBOM (s : List Char) : List Char :=
  s.dropWhile (fun c => c = '﻿')

/-- `re.sub(r"^\s*//.*$", "", blob, flags=re.MULTILINE)`: at each line
start, a whitespace run (possibly spanning newlines) followed by `//`
swallows everything up to the line end.  The first argument is fuel (the
Python engine scans a finite string; fuel `≥ length` is always enough
since every step consumes at least one character). -/
def stripLineCommentsGo : Nat → Bool → List Char → List Char
  | 0, _, l => l
  | fuel + 1, atStart, l =>
    match l with
    | [] => []
    | c :: rest =>
      if atStart then
        match l.dropWhile pyWs with
        | '/' :: '/' :: tail =>
          stripLineCommentsGo fuel false
            (tail.dropWhile (fun d => d ≠ '\n'))
        | _ => c :: stripLineCommentsGo fuel (c = '\n') rest
      else c :: stripLineCommentsGo fuel (c = '\n') rest

/-- Remainder after the nearest `*/`, if any. -/
def dropToClose : List Char → Option (List Char)
  | '*' :: '/' :: rest => some rest
  | _ :: rest => dropToClose rest
  | [] => none

/-- `re.sub(r"/\*.*?\*/", "", blob, flags=re.DOTALL)`: each `/*` up to
the nearest `*/` is removed; an unclosed `/*` stays. -/
def stripBlockCommentsGo : Nat → List Char → List Char
  | 0, l => l
  | _ + 1, [] => []
  | fuel + 1, '/' :: '*' :: rest =>
    match dropToClose rest with
    | some rem => stripBlockCommentsGo fuel rem
    | none => '/' :: stripBlockCommentsGo fuel ('*' :: rest)
  | fuel + 1, c :: rest => c :: stripBlockCommentsGo fuel rest

/-- One pass of `re.sub(r",\s*([}\]])", r"\1", blob)`: a comma, optional
whitespace, and a closing brace/bracket collapse to the closer alone.
Applies everywhere in the text, string literals included. -/
def commaPassGo : Nat → List Char → List Char
  | 0, l => l
  | _ + 1, [] => []
  | fuel + 1, c :: rest =>
    if c = ',' then
      match rest.dropWhile pyWs with
      | '\x7d' :: tail => '\x7d' :: commaPassGo fuel tail
      | ']' :: tail => ']' :: commaPassGo fuel tail
      | _ => ',' :: commaPassGo fuel rest
    else c :: commaPassGo fuel rest

/-- One pass of the trailing-comma substitution. -/
def commaPass (l : List Char) : List Char := commaPassGo l.length l

/-- The `while prev != blob` fixed-point loop: iterate the comma pass
until it no longer changes the text (each productive pass strictly
shrinks the text, so `length + 1` iterations always reach the fixed
point). -/
def commaFixGo : Nat → List Char → List Char
  | 0, l => l
  | fuel + 1, l =>
    let l2 := commaPass l
    if l2 = l then l else commaFixGo fuel l2

/-- `cleanup_json_blob` (`beamng_zip_extract_v3_popup.py` lines 157-166,
identical in `beamng_zip_renamer.py` and `beamng_zip_edit_kv.py`). -/
def cleanup_json_blob (blob : List Char) : List Char :=
  let b1 := stripBOM blob
  let b2 := stripLineCommentsGo b1.length true b1
  let b3 := stripBlockCommentsGo b2.length b2
  commaFixGo (b3.length + 1) b3

/-- `bytes.decode("latin-1")`: byte `i` maps to code point `i`. -/
def latin1Decode (bs : List Nat) : List Char :=
  bs.map (fun b => Char.ofNat (b % 256))

/-- Continuation byte test for UTF-8. -/
def contByte (b : Nat) : Bool := 0x80 ≤ b && b ≤ 0xBF

/-- Fuel-driven body of the UTF-8 decoder; every step consumes at least
one byte, so fuel `≥ length` never runs out. -/
def utf8Go : Nat → List Nat → List Char
  | 0, _ => []
  | _ + 1, [] => []
  | fuel + 1, b :: rest =>
    if b < 0x80 then Char.ofNat b :: utf8Go fuel rest
    else if 0xC2 ≤ b ∧ b ≤ 0xDF then
      match rest with
      | [] => ['�']
      | b2 :: rest2 =>
        if contByte b2 then
          Char.ofNat ((b - 0xC0) * 64 + (b2 - 0x80)) :: utf8Go fuel rest2
        else '�' :: utf8Go fuel rest
    else if 0xE0 ≤ b ∧ b ≤ 0xEF then
      match rest with
      | b2 :: b3 :: rest3 =>
        if (contByte b2 && contByte b3) &&
            !(b = 0xE0 && b2 < 0xA0) && !(b = 0xED && 0x9F < b2) then
          Char.ofNat ((b - 0xE0) * 4096 + (b2 - 0x80) * 64 + (b3 - 0x80)) ::
            utf8Go fuel rest3
        else '�' :: utf8Go fuel rest
      | _ => ['�']
    else if 0xF0 ≤ b ∧ b ≤ 0xF4 then
      match rest with
      | b2 :: b3 :: b4 :: rest4 =>
        if ((contByte b2 && contByte b3) && contByte b4) &&
            !(b = 0xF0 && b2 < 0x90) && !(b = 0xF4 && 0x8F < b2) then
          Char.ofNat ((b - 0xF0) * 262144 + (b2 - 0x80) * 4096 +
            (b3 - 0x80) * 64 + (b4 - 0x80)) :: utf8Go fuel rest4
        else '�' :: utf8Go fuel rest
      | _ => ['�']
    else '�' :: utf8Go fuel rest

/-- `bytes.decode("utf-8", errors="replace")`: standard UTF-8 with
malformed input turned into U+FFFD (the exact number of replacement
characters per malformed run may differ from CPython; no claim depends on
it). -/
def utf8DecodeReplace (bs : List Nat) : List Char := utf8Go bs.length bs

/-- One decoded-text attempt of the v3 `safe_load_json`
(`beamng_zip_extract_v3_popup.py` lines 174-183).  `loads` models
`json.loads` (`none` means the call raises).  Returns `some r` when the
Python loop body executes a `return r` (`r = none` models returning
`None` for a non-mapping top level), and `none` when both parse attempts
raise so the loop advances to the next encoding. -/
def tryParseText (loads : List Char → Option Json) (text : List Char) :
    Option (Option Json) :=
  match loads text with
  | some j =>
    some (match j with
      | Json.obj kvs => some (Json.obj kvs)
      | _ => none)
  | none =>
    match loads (cleanup_json_blob text) with
    | some j =>
      some (match j with
        | Json.obj kvs => some (Json.obj kvs)
        | _ => none)
    | none => none

/-- `safe_load_json` (`beamng_zip_extract_v3_popup.py` lines 168-184):
try UTF-8 then Latin-1 (both with `errors="replace"`, so decoding itself
never fails), strict parse then repaired parse, returning the parsed
mapping or `none`. -/
def safe_load_json (loads : List Char → Option Json) (raw : List Nat) :
    Option Json :=
  match tryParseText loads (utf8DecodeReplace raw) with
  | some r => r
  | none =>
    match tryParseText loads (latin1Decode raw) with
    | some r => r
    | none => none

/-- One decoded-text attempt of the renamer's `safe_load_json`
(`beamng_zip_renamer.py` lines 49-63): the parsed value is returned
whatever its shape (no mapping check at this level). -/
def renamerTryText (loads : List Char → Option Json) (text : List Char) :
    Option Json :=
  match loads text with
  | some j => some j
  | none => loads (cleanup_json_blob text)

/-- The renamer's `safe_load_json` (`beamng_zip_renamer.py` lines
49-63). -/
def renamer_safe_load_json (loads : List Char → Option Json)
    (raw : List Nat) : Option Json :=
  match renamerTryText loads (utf8DecodeReplace raw) with
  | some j => some j
  | none => renamerTryText loads (latin1Decode raw)

/-- The pure core of the renamer's `read_json` (`beamng_zip_renamer.py`
lines 84-91): coerce any non-mapping (or failed) parse to the empty
mapping. -/
def read_json_core (loads : List Char → Option Json) (raw : List Nat) :
    List (List Char × Json) :=
  match renamer_safe_load_json loads raw with
  | some (Json.obj kvs) => kvs
  | _ => []

/-- A concrete stand-in for `json.loads` at the single text `[1]`
(on which `json.loads` returns the list `[1]`); raises elsewhere. -/
def c4loads : List Char → Option Json := fun t =>
  if t = ("[1]").data then some (Json.arr [Json.num 1]) else none

/-- The bytes of the text `[1]`. -/
def c4raw : List Nat := [0x5b, 0x31, 0x5d]

/-- ASCII digit test (`\d` as the tools use it). -/
def isDigit (c : Char) : Bool := '0' ≤ c && c ≤ '9'

/-- Value of a run of decimal digit characters. -/
def digitsToNat (ds : List Char) : Nat :=
  ds.foldl (fun a c => a * 10 + (c.toNat - 48)) 0

/-- `re.fullmatch(r"-?\d+(\.\d+)?", value.strip())` of
`parse_human_time`. -/
def numRegexMatches (s0 : List Char) : Bool :=
  let s := stripWs s0
  let s1 := match s with
    | '-' :: t => t
    | _ => s
  let ds := s1.takeWhile isDigit
  let rest := s1.dropWhile isDigit
  decide (ds ≠ []) &&
    (match rest with
     | [] => true
     | '.' :: fr => decide (fr ≠ []) && fr.all isDigit
     | _ => false)

/-- `float(value)` for a string matching the numeric regex, as an exact
rational (CPython's float would round inputs beyond 53 bits; the tools'
timestamps are far below that). -/
def parseNumQ (s0 : List Char) : ℚ :=
  let s := stripWs s0
  let neg := match s with
    | '-' :: _ => true
    | _ => false
  let s1 := match s with
    | '-' :: t => t
    | _ => s
  let ds := s1.takeWhile isDigit
  let rest := s1.dropWhile isDigit
  let ip : ℚ := (digitsToNat ds : ℚ)
  let q := match rest with
    | '.' :: fr => ip + (digitsToNat fr : ℚ) / ((10 : ℚ) ^ fr.length)
    | _ => ip
  if neg then -q else q

/-- Days-to-civil-date conversion (proleptic Gregorian), as used by
`datetime.fromtimestamp(..., tz=timezone.utc)`.  Returns
`(year, month, day)`. -/
def civilFromDays (z0 : Int) : Int × Int × Int :=
  let z := z0 + 719468
  let era := Int.fdiv z 146097
  let doe := z - era * 146097
  let yoe := Int.fdiv
    (doe - Int.fdiv doe 1460 + Int.fdiv doe 36524 - Int.fdiv doe 146096) 365
  let y := yoe + era * 400
  let doy := doe - (365 * yoe + Int.fdiv yoe 4 - Int.fdiv yoe 100)
  let mp := Int.fdiv (5 * doy + 2) 153
  let d := doy - Int.fdiv (153 * mp + 2) 5 + 1
  let m := if mp < 10 then mp + 3 else mp - 9
  (if m ≤ 2 then y + 1 else y, m, d)

/-- Two-digit zero-padded rendering of a field value. -/
def pad2 (n : Int) : List Char :=
  if n < 10 then '0' :: natDigits n.toNat else natDigits n.toNat

/-- `datetime.fromtimestamp(ep, tz=timezone.utc).strftime("%Y-%m-%d
%H:%M:%S %Z")` for an integral epoch second (`to_iso`,
`beamng_zip_extract_v3_popup.py` lines 120-124). -/
def formatEpochUTC (ep : Int) : List Char :=
  let days := Int.fdiv ep 86400
  let sod := ep - days * 86400
  let c := civilFromDays days
  natDigits c.1.toNat ++
    ('-' :: pad2 c.2.1) ++ ('-' :: pad2 c.2.2) ++
    (' ' :: pad2 (Int.fdiv sod 3600)) ++
    (':' :: pad2 (Int.fdiv (sod % 3600) 60)) ++
    (':' :: pad2 (sod % 60)) ++ (" UTC").data

/-- The numeric branch of `parse_human_time`
(`beamng_zip_extract_v3_popup.py` lines 130-138): above `1e12` the value
is divided by 1000 (milliseconds), then rendered only inside the open
interval `(0, 32503680000)`; `fromtimestamp` of a positive float floors
to whole seconds under `%S`. -/
def numRender (q : ℚ) : Option (List Char) :=
  let n2 := if q > 1000000000000 then q / 1000 else q
  if 0 < n2 ∧ n2 < 32503680000 then some (formatEpochUTC (Rat.floor n2))
  else none

/-- A Python value reaching `parse_human_time`. -/
inductive PyVal where
  | none
  | int (n : Int)
  | float (q : ℚ)
  | str (s : List Char)

/-- `parse_human_time` (`beamng_zip_extract_v3_popup.py` lines 126-155).
`fromiso` abstracts the ISO-8601 branch of lines 141-152
(`datetime.fromisoformat` with the `Z`/offset preprocessing and UTC
conversion — external stdlib): it yields the UTC epoch second of the
parsed datetime, or `none` when both `fromisoformat` attempts raise. -/
def parse_human_time (fromiso : List Char → Option Int) :
    PyVal → List Char
  | .none => []
  | .int n => (numRender (n : ℚ)).getD []
  | .float q => (numRender q).getD []
  | .str s =>
    match (if numRegexMatches s then numRender (parseNumQ s)
           else Option.none) with
    | some r => r
    | none =>
      match fromiso s with
      | some ep => formatEpochUTC ep
      | none => []

/-- Python truthiness of a parsed document value. -/
def jTruthy : Json → Bool
  | .null => false
  | .bool b => b
  | .num q => decide (q ≠ 0)
  | .str s => decide (s ≠ [])
  | .arr xs => !xs.isEmpty
  | .obj kvs => !kvs.isEmpty

/-- `j.get(k1) or j.get(k2) or ... or ""`: the first truthy value, else
the empty string. -/
def orChainGet (j : List (List Char × Json)) :
    List (List Char) → Json
  | [] => .str []
  | k :: rest =>
    match j.lookup k with
    | some v => if jTruthy v then v else orChainGet j rest
    | none => orChainGet j rest

/-- Decimal digits of an integer. -/
def intToChars (n : Int) : List Char :=
  if n < 0 then '-' :: natDigits (-n).toNat else natDigits n.toNat

/-- Join pieces with a separator. -/
def joinSep (sep : List Char) : List (List Char) → List Char
  | [] => []
  | [x] => x
  | x :: y :: rest => x ++ sep ++ joinSep sep (y :: rest)

/-- Rendering of a number for `str()`.  Integral rationals render as
integers; non-integral ones (Python floats, whose shortest-repr string is
not representable here) fall back to a `num/den` form.  Every claim
exercises only string and integral values. -/
def ratToChars (q : ℚ) : List Char :=
  if q.den = 1 then intToChars q.num
  else intToChars q.num ++ ('/' :: natDigits q.den)

/-- `str(value)` for a parsed document value, depth-bounded by the value's
size.  Scalars follow Python exactly (`None`, `True`, `False`, digit
strings, the string itself); containers approximate `repr` (claims never
evaluate containers). -/
def pyStrGo : Nat → Json → List Char
  | _, .null => ("None").data
  | _, .bool b => if b then ("True").data else ("False").data
  | _, .num q => ratToChars q
  | _, .str s => s
  | 0, .arr _ => []
  | fuel + 1, .arr xs =>
    '[' :: (joinSep ((", ").data) (xs.map (fun e => pyStrGo fuel e)) ++ [']'])
  | 0, .obj _ => []
  | fuel + 1, .obj kvs =>
    '\x7b' :: (joinSep ((", ").data)
      (kvs.map (fun kv =>
        '\'' :: kv.1 ++ (("': ").data) ++ pyStrGo fuel kv.2)) ++ ['\x7d'])

/-- `str(value)`: containers are depth-bounded at 100 (beyond any real
document; scalars are rendered without consuming fuel). -/
def pyStr (j : Json) : List Char := pyStrGo 100 j

/-- `str(j.get(k, ""))`. -/
def pyStrDefault (j : List (List Char × Json)) (k : List Char) :
    List Char :=
  match j.lookup k with
  | some v => pyStr v
  | none => []

/-- Substring containment (`needle in haystack`). -/
def containsSub (needle : List Char) : List Char → Bool
  | [] => needle.isPrefixOf []
  | c :: rest => needle.isPrefixOf (c :: rest) || containsSub needle rest

/-- The `(?:\.\d+)*` tail of the filename version regex: greedily consume
dot-plus-digits groups. -/
def dotGroupsGo : Nat → List Char → List Char
  | 0, _ => []
  | fuel + 1, l =>
    match l with
    | '.' :: t =>
      let ds := t.takeWhile isDigit
      if ds = [] then []
      else '.' :: (ds ++ dotGroupsGo fuel (t.dropWhile isDigit))
    | _ => []

/-- Attempt of `re.search(r"\s(v\d+(?:\.\d+)*)", ..., re.IGNORECASE)` at
one position: whitespace, `v`/`V`, one or more digits, dotted digit
groups.  Returns group 1 (without the leading whitespace). -/
def matchVersionAt : List Char → Option (List Char)
  | c :: v :: t =>
    if pyWs c && (v = 'v' || v = 'V') then
      let ds := t.takeWhile isDigit
      if ds = [] then none
      else some (v :: (ds ++ dotGroupsGo t.length (t.dropWhile isDigit)))
    else none
  | _ => none

/-- Leftmost match of the filename version regex. -/
def findVersionToken : List Char → Option (List Char)
  | [] => none
  | c :: rest =>
    match matchVersionAt (c :: rest) with
    | some g => some g
    | none => findVersionToken rest

/-- `guess_version` (`beamng_zip_renamer.py` lines 93-102): a version
token found in the filename is returned as matched (group 1, without the
separating space); the `version_string` fallback is `"v"`-prefixed if
needed and returned with a leading space. -/
def guess_version (basename : List Char)
    (j : List (List Char × Json)) : List Char :=
  match findVersionToken basename with
  | some g => g
  | none =>
    match j.lookup (("version_string").data) with
    | some (Json.str ver) =>
      if decide (stripWs ver ≠ []) then
        let ver2 := match lowerL ver with
          | 'v' :: _ => ver
          | _ => 'v' :: stripWs ver
        ' ' :: stripWs ver2
      else []
    | _ => []

/-- Characters replaced by `_` in filename components. -/
def badFsChars : List Char := ['<', '>', ':', '"', '/', '\\', '|', '?', '*']

/-- `sanitize_component` (`beamng_zip_renamer.py` lines 104-108). -/
def sanitize_component (s : List Char) : List Char :=
  stripWs (collapseWs false
    (s.map (fun c => if badFsChars.contains c then '_' else c)))

/-- `norm_category` (`beamng_zip_renamer.py` lines 110-120). -/
def norm_category (j : List (List Char × Json)) : List Char :=
  let try1 := fun (k : List Char) =>
    match j.lookup k with
    | some (Json.str v) =>
      if decide (stripWs v ≠ []) then some (lowerL (stripWs v)) else none
    | _ => none
  match try1 (("category_title").data) with
  | some r => r
  | none =>
    match try1 (("tag_line").data) with
    | some r => r
    | none =>
      let blob := lowerL (pyStrDefault j (("title").data) ++
        (' ' :: (pyStrDefault j (("description").data) ++
          (' ' :: pyStrDefault j (("message").data)))))
      if containsSub (("track").data) blob ||
          containsSub (("raceway").data) blob ||
          containsSub (("speedway").data) blob ||
          containsSub (("circuit").data) blob ||
          containsSub (("motorspeedway").data) blob then
        ("race track").data
      else if containsSub (("trail").data) blob ||
          containsSub (("overland").data) blob ||
          containsSub (("rock").data) blob ||
          containsSub (("mud").data) blob ||
          containsSub (("offroad").data) blob ||
          containsSub (("off-road").data) blob then
        ("offroad").data
      else ("fictional").data

/-- `vehicle_name` (`beamng_zip_renamer.py` lines 122-126): brand, body
style and name with falsy-chaining defaults and `str().strip()`. -/
def vehicle_name (j : List (List Char × Json)) :
    List Char × List Char × List Char :=
  (stripWs (pyStr (orChainGet j [("Brand").data, ("brand").data])),
   stripWs (pyStr (orChainGet j
     [("Body Style").data, ("body_style").data, ("BodyStyle").data])),
   stripWs (pyStr (orChainGet j [("Name").data, ("title").data])))

/-- `map_title` (`beamng_zip_renamer.py` lines 128-130). -/
def map_title (j : List (List Char × Json)) : List Char :=
  stripWs (pyStr (orChainGet j [("title").data, ("Name").data]))

/-- `build_vehicle_filename` (`beamng_zip_renamer.py` lines 132-138). -/
def build_vehicle_filename (brand body name ver : List Char) :
    Option (List Char) :=
  if name = [] then none
  else some ((("[vehicle][car][").data) ++
    (if brand = [] then ("Unknown").data else sanitize_component brand) ++
    (("][").data) ++
    (if body = [] then ("Unknown").data else sanitize_component body) ++
    (("] ").data) ++ sanitize_component name ++ ver ++ ((".zip").data))

/-- `build_map_filename` (`beamng_zip_renamer.py` lines 140-145). -/
def build_map_filename (category title ver : List Char) :
    Option (List Char) :=
  let t := if title = [] then [] else sanitize_component title
  if t = [] then none
  else some ((("[map][").data) ++
    sanitize_component (if category = [] then ("fictional").data
      else category) ++
    (("] ").data) ++ t ++ ver ++ ((".zip").data))

/-- Base filename equals `info.json`, case-insensitively
(`beamng_zip_renamer.py` line 70; posix `os.path.basename` on the raw
entry name). -/
def isInfoJsonName (nm : List Char) : Bool :=
  decide (lowerL (basenameL nm) = ("info.json").data)

/-- One iteration of the `find_kind_and_info` scan
(`beamng_zip_renamer.py` lines 68-77): remember the latest `info.json`
directly under `vehicles/` and under `levels/`. -/
def infoStep (acc : Option (List Char) × Option (List Char))
    (nm : List Char) : Option (List Char) × Option (List Char) :=
  if isInfoJsonName nm then
    let path := normSlash nm
    let parts := List.splitOn '/' path
    let acc1 := if 1 < parts.length ∧
        lowerL (parts.getD 0 []) = ("vehicles").data then
      (some path, acc.2)
    else acc
    if 1 < parts.length ∧ lowerL (parts.getD 0 []) = ("levels").data then
      (acc1.1, some path)
    else acc1
  else acc

/-- `find_kind_and_info` (`beamng_zip_renamer.py` lines 65-82): vehicles
wins over levels, and the remembered path is the last in entry order. -/
def find_kind_and_info (entries : List (List Char)) :
    Option (List Char) × Option (List Char) :=
  let r := entries.foldl infoStep (none, none)
  match r.1 with
  | some v => (some (("vehicle").data), some v)
  | none =>
    match r.2 with
    | some l => (some (("map").data), some l)
    | none => (none, none)

/-- The entry is an `info.json` directly under `vehicles/`. -/
def isVehEntry (nm : List Char) : Bool :=
  isInfoJsonName nm &&
    decide (1 < (List.splitOn '/' (normSlash nm)).length ∧
      lowerL ((List.splitOn '/' (normSlash nm)).getD 0 []) =
        ("vehicles").data)

/-- The entry is an `info.json` directly under `levels/`. -/
def isLevEntry (nm : List Char) : Bool :=
  isInfoJsonName nm &&
    decide (1 < (List.splitOn '/' (normSlash nm)).length ∧
      lowerL ((List.splitOn '/' (normSlash nm)).getD 0 []) =
        ("levels").data)

/-- The pure core of `plan_new_name` (`beamng_zip_renamer.py` lines
158-173).  `readDoc` abstracts `read_json` (archive entry read plus
`safe_load_json`): the parsed document for a path. -/
def plan_core (entries : List (List Char))
    (readDoc : List Char → List (List Char × Json)) (bn : List Char) :
    Option (List Char) × Option (List Char) :=
  match find_kind_and_info entries with
  | (some k, some ip) =>
    let j := readDoc ip
    let ver := guess_version bn j
    let new := if k = ("vehicle").data then
        build_vehicle_filename (vehicle_name j).1 (vehicle_name j).2.1
          (vehicle_name j).2.2 ver
      else build_map_filename (norm_category j) (map_title j) ver
    (new, if new.isSome then none
      else some (("insufficient metadata").data))
  | _ => (none, some (("no info.json under vehicles or levels").data))

/-- Document of the C7 example. -/
def c7doc : List (List Char × Json) :=
  [(("Brand").data, Json.str (("Ibishu").data)),
   (("Body Style").data, Json.str (("Sedan").data)),
   (("Name").data, Json.str (("Pessima").data))]

/-- Archive entries of the C7 example. -/
def c7entries : List (List Char) := [("vehicles/pessima/info.json").data]

/-- Archive entries for the C10 witness: levels and vehicles both
present, two vehicles documents. -/
def c10entries : List (List Char) :=
  [("levels/a/info.json").data, ("vehicles/x/info.json").data,
   ("vehicles/y/info.json").data]

/-- Document for the C10 witness. -/
def c10doc : List (List Char × Json) :=
  [(("Name").data, Json.str (("Car").data))]

/-- `_ELLIPSIS` (`extractallfromzips.py` line 39).  The source file holds
the bytes `c3 a2 e2 82 ac c2 a6` — the UTF-8 ellipsis double-encoded —
which decode to the THREE characters U+00E2, U+20AC, U+00A6, not to a
single ellipsis. -/
def ellipsisTracking : List Char := ['â', '€', '¦']

/-- `serialize_value` (`extractallfromzips.py` lines 123-129): lists and
dicts go through `json.dumps` (external stdlib, abstracted as `dumps`),
`None` becomes the empty string, other scalars go through `str`. -/
def serialize_value (dumps : Json → List Char) : Json → List Char
  | .arr xs => dumps (.arr xs)
  | .obj kvs => dumps (.obj kvs)
  | .null => []
  | .bool b => pyStr (.bool b)
  | .num q => pyStr (.num q)
  | .str s => s

/-- `clean_single_line` (`extractallfromzips.py` lines 131-134): the same
replace/collapse/strip sequence as the v3 `sanitize_cell`. -/
def clean_single_line (s : List Char) : List Char := cleanCollapse s

/-- `sanitize_with_tracking` (`extractallfromzips.py` lines 136-143).
Returns `(cell, truncated, original serialized value, its length)`; note
the appended marker is the three-character `ellipsisTracking` and the
recorded original is the pre-collapse serialized value. -/
def sanitize_with_tracking (dumps : Json → List Char) (val : Json)
    (max_len : Nat) : List Char × Bool × List Char × Nat :=
  let original := serialize_value dumps val
  let cleaned := clean_single_line original
  if max_len ≠ 0 ∧ max_len > 0 ∧ cleaned.length > max_len then
    (cleaned.take (max_len - 1) ++ ellipsisTracking, true, original,
      original.length)
  else (cleaned, false, original, original.length)

/-- The per-row sanitising loop of the CSV writer
(`beamng_zip_extract_v3_popup.py` lines 557-567): builds the sanitized
cells, the `full` sidecar mapping and the `lengths` sidecar mapping. -/
def sanitizeRowCells (budget : Nat) :
    List (List Char × List Char) →
    List (List Char × List Char) × List (List Char × List Char) ×
      List (List Char × Nat)
  | [] => ([], [], [])
  | (k, v) :: rest =>
    let r := sanitize_cell v budget
    let rec_ := sanitizeRowCells budget rest
    ((k, r.1) :: rec_.1,
     if r.2.1 then (k, r.2.2.1) :: rec_.2.1 else rec_.2.1,
     if r.2.1 then (k, r.2.2.2) :: rec_.2.2 else rec_.2.2)

end BeamNG

namespace BeamNG

/-- Keys that never entered a truncation sidecar cannot be looked up there. -/
theorem sanitizeRow_lookup_none (budget : Nat) (row : List (List Char × List Char))
    (k : List Char) (hk : k ∉ row.map Prod.fst) :
    (sanitizeRowCells budget row).2.1.lookup k = none ∧
    (sanitizeRowCells budget row).2.2.lookup k = none := by
  induction row with
  | nil => simp [sanitizeRowCells]
  | cons hd tl ih =>
    obtain ⟨k', v'⟩ := hd
    simp only [List.map_cons, List.mem_cons, not_or] at hk
    obtain ⟨hne, hnotin⟩ := hk
    have ihr := ih hnotin
    have hbeq : (k == k') = false := by
      simp only [beq_eq_false_iff_ne, ne_eq]
      exact hne
    constructor
    · simp only [sanitizeRowCells]
      split
      · simp [List.lookup, hbeq, ihr.1]
      · exact ihr.1
    · simp only [sanitizeRowCells]
      split
      · simp [List.lookup, hbeq, ihr.2]
      · exact ihr.2

/-- The third component of `sanitize_cell` is always the collapsed value. -/
theorem sanitize_cell_orig (v : List Char) (budget : Nat) :
    (sanitize_cell v budget).2.2.1 = cleanCollapse v := by
  simp only [sanitize_cell]
  split <;> rfl

/-- The fourth component of `sanitize_cell` is the collapsed value's length. -/
theorem sanitize_cell_len (v : List Char) (budget : Nat) :
    (sanitize_cell v budget).2.2.2 = (cleanCollapse v).length := by
  simp only [sanitize_cell]
  split <;> rfl

/-- Sidecar lookup for a row with distinct keys: a field's entry in the
`full`/`lengths` stores is present exactly when the cell was truncated, and
then holds the collapsed pre-truncation value and its length. -/
theorem sanitizeRow_lookup (budget : Nat) (row : List (List Char × List Char))
    (k v : List Char) (hnd : (row.map Prod.fst).Nodup)
    (hv : row.lookup k = some v) :
    (sanitizeRowCells budget row).2.1.lookup k =
      (if (sanitize_cell v budget).2.1 then some (cleanCollapse v) else none) ∧
    (sanitizeRowCells budget row).2.2.lookup k =
      (if (sanitize_cell v budget).2.1 then some (cleanCollapse v).length
       else none) := by
  induction row with
  | nil => simp [List.lookup] at hv
  | cons hd tl ih =>
    obtain ⟨k', v'⟩ := hd
    simp only [List.map_cons, List.nodup_cons] at hnd
    obtain ⟨hk'nin, hndtl⟩ := hnd
    by_cases heq : k = k'
    · subst heq
      have hbeq : (k == k) = true := by simp
      have hv' : v' = v := by
        simp only [List.lookup, hbeq] at hv
        exact Option.some.inj hv
      subst hv'
      have hnone := sanitizeRow_lookup_none budget tl k hk'nin
      cases htr : (sanitize_cell v' budget).2.1 with
      | true =>
        constructor
        · simp [sanitizeRowCells, htr, List.lookup, hbeq, sanitize_cell_orig]
        · simp [sanitizeRowCells, htr, List.lookup, hbeq, sanitize_cell_len]
      | false =>
        constructor
        · simp [sanitizeRowCells, htr, hnone.1]
        · simp [sanitizeRowCells, htr, hnone.2]
    · have hbeq : (k == k') = false := by
        simp only [beq_eq_false_iff_ne, ne_eq]
        exact heq
      have hvtl : tl.lookup k = some v := by
        simpa [List.lookup, hbeq] using hv
      have ihr := ih hndtl hvtl
      cases htr : (sanitize_cell v' budget).2.1 with
      | true =>
        constructor
        · simpa [sanitizeRowCells, htr, List.lookup, hbeq] using ihr.1
        · simpa [sanitizeRowCells, htr, List.lookup, hbeq] using ihr.2
      | false =>
        constructor
        · simpa [sanitizeRowCells, htr] using ihr.1
        · simpa [sanitizeRowCells, htr] using ihr.2

/-- The v3 `sanitize_cell` first collapses internal whitespace to single
spaces; a collapsed value longer than a positive budget is truncated to
`budget - 1` characters plus one ellipsis (so the emitted cell is exactly
`budget` characters long), with the truncation record carrying the
untruncated collapsed value and its length; the pre-truncation value is
recoverable from the row's sidecar store; in-budget fields are written
unchanged and leave no sidecar entry. -/
theorem c1_sanitize_cell_lossless
    (s : List Char) (budget : Nat) (row : List (List Char × List Char))
    (k v : List Char) (hb : 0 < budget)
    (hnd : (row.map Prod.fst).Nodup) (hv : row.lookup k = some v) :
    (sanitize_cell s budget).2.2.1 = cleanCollapse s ∧
    (sanitize_cell s budget).2.2.2 = (cleanCollapse s).length ∧
    (budget < (cleanCollapse s).length →
      (sanitize_cell s budget).2.1 = true ∧
      (sanitize_cell s budget).1.length = budget ∧
      (sanitize_cell s budget).1 =
        (cleanCollapse s).take (budget - 1) ++ ['…']) ∧
    ((cleanCollapse s).length ≤ budget →
      (sanitize_cell s budget).2.1 = false ∧
      (sanitize_cell s budget).1 = cleanCollapse s) ∧
    ((sanitizeRowCells budget row).2.1.lookup k =
      if (sanitize_cell v budget).2.1 then some (cleanCollapse v) else none) ∧
    ((sanitizeRowCells budget row).2.2.lookup k =
      if (sanitize_cell v budget).2.1 then some (cleanCollapse v).length
      else none) := by
  have hlk := sanitizeRow_lookup budget row k v hnd hv
  refine ⟨sanitize_cell_orig s budget, sanitize_cell_len s budget, ?_, ?_,
    hlk.1, hlk.2⟩
  · intro hlong
    have hcond : budget ≠ 0 ∧ (cleanCollapse s).length > budget :=
      ⟨Nat.pos_iff_ne_zero.mp hb, hlong⟩
    refine ⟨?_, ?_, ?_⟩
    · simp [sanitize_cell, hcond]
    · simp only [sanitize_cell, if_pos hcond]
      simp only [List.length_append, List.length_take, List.length_cons,
        List.length_nil]
      omega
    · simp [sanitize_cell, hcond]
  · intro hshort
    have hcond : ¬ (budget ≠ 0 ∧ (cleanCollapse s).length > budget) := by
      intro h
      omega
    constructor
    · simp [sanitize_cell, hcond]
    · simp [sanitize_cell, hcond]

/-- Counterexample for C1 at `sanitize_with_tracking`: on the eight-char
value `abcdefgh` with budget 5 the emitted cell is the first four
characters followed by the three-character mojibake marker, so it is 7
characters long, not the claimed exactly-5; the marker is not a single
ellipsis. -/
theorem c1_tracking_counterexample :
    (sanitize_with_tracking (fun _ => []) (Json.str (("abcdefgh").data))
        5).1 = ("abcd").data ++ ellipsisTracking ∧
    (sanitize_with_tracking (fun _ => []) (Json.str (("abcdefgh").data))
        5).1.length = 7 ∧
    ellipsisTracking.length = 3 ∧
    ellipsisTracking ≠ ['…'] := by decide

/-- C1.  The claim holds for the v3 `sanitize_cell` (collapse, truncate to
`budget - 1` chars plus one real ellipsis giving exactly `budget` chars,
record the collapsed value and its length, lossless sidecar recovery,
in-budget fields untouched), but NOT for `sanitize_with_tracking` in
`extractallfromzips.py`: there the `_ELLIPSIS` constant is the
three-character mojibake `â€¦`, so a truncated cell has `budget + 2`
characters rather than exactly `budget`, and the record stores the
PRE-collapse serialized value and its length. -/
theorem c1_cell_sanitizers_amended
    (s : List Char) (budget : Nat) (row : List (List Char × List Char))
    (k v : List Char) (dumps : Json → List Char) (val : Json)
    (hb : 0 < budget)
    (hnd : (row.map Prod.fst).Nodup) (hv : row.lookup k = some v) :
    ((sanitize_cell s budget).2.2.1 = cleanCollapse s ∧
     (sanitize_cell s budget).2.2.2 = (cleanCollapse s).length ∧
     (budget < (cleanCollapse s).length →
       (sanitize_cell s budget).2.1 = true ∧
       (sanitize_cell s budget).1.length = budget ∧
       (sanitize_cell s budget).1 =
         (cleanCollapse s).take (budget - 1) ++ ['…']) ∧
     ((cleanCollapse s).length ≤ budget →
       (sanitize_cell s budget).2.1 = false ∧
       (sanitize_cell s budget).1 = cleanCollapse s) ∧
     ((sanitizeRowCells budget row).2.1.lookup k =
       if (sanitize_cell v budget).2.1 then some (cleanCollapse v)
       else none) ∧
     ((sanitizeRowCells budget row).2.2.lookup k =
       if (sanitize_cell v budget).2.1 then some (cleanCollapse v).length
       else none)) ∧
    ((sanitize_with_tracking dumps val budget).2.2.1 =
       serialize_value dumps val ∧
     (sanitize_with_tracking dumps val budget).2.2.2 =
       (serialize_value dumps val).length ∧
     (budget < (clean_single_line (serialize_value dumps val)).length →
       (sanitize_with_tracking dumps val budget).2.1 = true ∧
       (sanitize_with_tracking dumps val budget).1 =
         (clean_single_line (serialize_value dumps val)).take (budget - 1)
           ++ ellipsisTracking ∧
       (sanitize_with_tracking dumps val budget).1.length = budget + 2) ∧
     ((clean_single_line (serialize_value dumps val)).length ≤ budget →
       (sanitize_with_tracking dumps val budget).2.1 = false ∧
       (sanitize_with_tracking dumps val budget).1 =
         clean_single_line (serialize_value dumps val))) := by
  refine ⟨c1_sanitize_cell_lossless s budget row k v hb hnd hv,
    ?_, ?_, ?_, ?_⟩
  · by_cases hc : budget ≠ 0 ∧ budget > 0 ∧
        (clean_single_line (serialize_value dumps val)).length > budget
    · simp [sanitize_with_tracking, hc]
    · simp [sanitize_with_tracking, hc]
  · by_cases hc : budget ≠ 0 ∧ budget > 0 ∧
        (clean_single_line (serialize_value dumps val)).length > budget
    · simp [sanitize_with_tracking, hc]
    · simp [sanitize_with_tracking, hc]
  · intro hlong
    have hcond : budget ≠ 0 ∧ budget > 0 ∧
        (clean_single_line (serialize_value dumps val)).length > budget :=
      ⟨Nat.pos_iff_ne_zero.mp hb, hb, hlong⟩
    refine ⟨?_, ?_, ?_⟩
    · simp [sanitize_with_tracking, hcond]
    · simp [sanitize_with_tracking, hcond]
    · simp only [sanitize_with_tracking, if_pos hcond]
      simp only [List.length_append, List.length_take, ellipsisTracking,
        List.length_cons, List.length_nil]
      omega
  · intro hshort
    have hcond : ¬ (budget ≠ 0 ∧ budget > 0 ∧
        (clean_single_line (serialize_value dumps val)).length > budget) := by
      intro h
      omega
    constructor
    · simp [sanitize_with_tracking, hcond]
    · simp [sanitize_with_tracking, hcond]

/-- The compartment lists built by `categorize_info_paths` are exactly the
order-preserving filters of the input paths by top-level segment. -/
theorem categorize_eq_filters (paths : List (List Char)) :
    (categorize_info_paths paths).1 =
      paths.filter
        (fun p => decide (top_level_from_internal p = ("levels").data)) ∧
    (categorize_info_paths paths).2.1 =
      paths.filter
        (fun p => decide (top_level_from_internal p = ("vehicles").data)) ∧
    (categorize_info_paths paths).2.2.1 =
      paths.filter
        (fun p => decide (top_level_from_internal p = ("mod_info").data)) := by
  induction paths with
  | nil => simp [categorize_info_paths]
  | cons p rest ih =>
    have hlv : ("levels").data ≠ ("vehicles").data := by decide
    have hlm : ("levels").data ≠ ("mod_info").data := by decide
    have hvm : ("vehicles").data ≠ ("mod_info").data := by decide
    by_cases h1 : top_level_from_internal p = ("levels").data
    · simp [categorize_info_paths, h1, hlv.symm, hlm.symm, List.filter_cons,
        ih.1, ih.2.1, ih.2.2]
    · by_cases h2 : top_level_from_internal p = ("vehicles").data
      · simp [categorize_info_paths, h1, h2, hvm.symm, List.filter_cons,
          ih.1, ih.2.1, ih.2.2]
      · by_cases h3 : top_level_from_internal p = ("mod_info").data
        · simp [categorize_info_paths, h1, h2, h3, List.filter_cons,
            ih.1, ih.2.1, ih.2.2]
        · simp [categorize_info_paths, h1, h2, h3, List.filter_cons,
            ih.1, ih.2.1, ih.2.2]

/-- An entry whose normalised path is non-excluded and whose base filename
is `info.json` lands in the collected `info` candidate list. -/
theorem mem_collect_info (entries : List (List Char))
    (exclude : List (List Char)) (nm : List Char) (hmem : nm ∈ entries)
    (hexc : exclude.contains
      (top_level_from_internal (lstripSlash (normSlash nm))) = false)
    (hbase : lowerL (basenameL (lstripSlash (normSlash nm))) =
      ("info.json").data) :
    lstripSlash (normSlash nm) ∈ (collect_json_candidates entries exclude).1 := by
  induction entries with
  | nil => simp at hmem
  | cons e rest ih =>
    rcases List.mem_cons.mp hmem with rfl | htl
    · have hne : lstripSlash (normSlash nm) ≠ [] := by
        intro h0
        rw [h0] at hbase
        simp [basenameL, lowerL] at hbase
      simp only [collect_json_candidates, if_neg hne]
      rw [hexc]
      simp only [Bool.false_eq_true, if_false, if_pos hbase]
      exact List.mem_cons_self _ _
    · have hin := ih htl
      simp only [collect_json_candidates]
      split
      · exact hin
      · split
        · exact hin
        · split
          · exact List.mem_cons_of_mem _ hin
          · split
            · exact hin
            · exact hin

/-- C3.  If the non-excluded entries contain `info.json` files under both a
`levels` and a `vehicles` compartment, the selection engine returns tag
`levels` and selects exactly the levels `info.json` files plus all
`mod_info` `info.json` files; no vehicles or UI entry is selected. -/
theorem c3_levels_priority (entries : List (List Char))
    (exclude : List (List Char))
    (hl : ∃ nm ∈ entries,
      exclude.contains
        (top_level_from_internal (lstripSlash (normSlash nm))) = false ∧
      lowerL (basenameL (lstripSlash (normSlash nm))) = ("info.json").data ∧
      top_level_from_internal (lstripSlash (normSlash nm)) =
        ("levels").data)
    (_hv : ∃ nm ∈ entries,
      exclude.contains
        (top_level_from_internal (lstripSlash (normSlash nm))) = false ∧
      lowerL (basenameL (lstripSlash (normSlash nm))) = ("info.json").data ∧
      top_level_from_internal (lstripSlash (normSlash nm)) =
        ("vehicles").data) :
    select_jsons (collect_json_candidates entries exclude).1
        (collect_json_candidates entries exclude).2 =
      ((("levels").data),
        (collect_json_candidates entries exclude).1.filter
          (fun p => decide (top_level_from_internal p = ("levels").data)) ++
        (collect_json_candidates entries exclude).1.filter
          (fun p => decide (top_level_from_internal p = ("mod_info").data)),
        []) ∧
    (∀ q ∈ (select_jsons (collect_json_candidates entries exclude).1
        (collect_json_candidates entries exclude).2).2.1,
      top_level_from_internal q = ("levels").data ∨
      top_level_from_internal q = ("mod_info").data) := by
  obtain ⟨nm, hmem, hexc, hbase, htop⟩ := hl
  have hmemc := mem_collect_info entries exclude nm hmem hexc hbase
  have hcat := categorize_eq_filters (collect_json_candidates entries exclude).1
  have hlevne : (categorize_info_paths
      (collect_json_candidates entries exclude).1).1 ≠ [] := by
    rw [hcat.1]
    intro hempty
    have : lstripSlash (normSlash nm) ∈
        (collect_json_candidates entries exclude).1.filter
          (fun p => decide (top_level_from_internal p = ("levels").data)) :=
      List.mem_filter.mpr ⟨hmemc, by simp [htop]⟩
    rw [hempty] at this
    simp at this
  have hsel : select_jsons (collect_json_candidates entries exclude).1
      (collect_json_candidates entries exclude).2 =
      ((("levels").data),
        (collect_json_candidates entries exclude).1.filter
          (fun p => decide (top_level_from_internal p = ("levels").data)) ++
        (collect_json_candidates entries exclude).1.filter
          (fun p => decide (top_level_from_internal p = ("mod_info").data)),
        []) := by
    have hlevne2 : (collect_json_candidates entries exclude).1.filter
        (fun p => decide (top_level_from_internal p = ("levels").data)) ≠
          [] := by
      rw [← hcat.1]
      exact hlevne
    simp only [select_jsons, hcat.1, hcat.2.2, if_pos hlevne2]
  refine ⟨hsel, ?_⟩
  intro q hq
  rw [hsel] at hq
  rcases List.mem_append.mp hq with hql | hqm
  · exact Or.inl (by simpa using (List.mem_filter.mp hql).2)
  · exact Or.inr (by simpa using (List.mem_filter.mp hqm).2)

/-- `splitext` is a decomposition: root and extension concatenate back to
the path. -/
theorem splitext_append (p : List Char) :
    (splitext p).1 ++ (splitext p).2 = p := by
  have hsplit := List.takeWhile_append_dropWhile
    (p := fun c => !(c = '.' || c = '/')) (l := p.reverse)
  simp only [splitext]
  cases hdw : p.reverse.dropWhile (fun c => !(c = '.' || c = '/')) with
  | nil => simp
  | cons c rest2 =>
    by_cases hc : c = '.'
    · subst hc
      simp only [List.head?_cons, Option.some.injEq, List.tail_cons, if_pos]
      split
      · rw [hdw] at hsplit
        have hrev : p = rest2.reverse ++
            ('.' :: (p.reverse.takeWhile
              (fun c => !(c = '.' || c = '/'))).reverse) := by
          conv_lhs => rw [← List.reverse_reverse p, ← hsplit]
          simp
        exact hrev.symm
      · simp
    · simp [hc]

/-- The extension produced by `splitext` is empty or a dot followed by
dot-free characters. -/
theorem splitext_ext_dotfree (p : List Char) :
    (splitext p).2 = [] ∨
    ∃ mid, (splitext p).2 = '.' :: mid ∧ '.' ∉ mid := by
  simp only [splitext]
  cases hdw : p.reverse.dropWhile (fun c => !(c = '.' || c = '/')) with
  | nil => simp
  | cons c rest2 =>
    by_cases hc : c = '.'
    · subst hc
      simp only [List.head?_cons, Option.some.injEq, List.tail_cons, if_pos]
      split
      · refine Or.inr ⟨(p.reverse.takeWhile
          (fun c => !(c = '.' || c = '/'))).reverse, rfl, ?_⟩
        intro hmem
        have hmem2 := List.mem_reverse.mp hmem
        have := List.mem_takeWhile_imp hmem2
        simp at this
      · simp
    · simp [hc]

/-- The sibling `.edited.zip` path differs from the original path. -/
theorem editedPath_ne (zp : List Char) :
    (splitext zp).1 ++ (".edited.zip").data ≠ zp := by
  intro h
  have h2 : (splitext zp).1 ++ (".edited.zip").data =
      (splitext zp).1 ++ (splitext zp).2 :=
    h.trans (splitext_append zp).symm
  have hext := List.append_cancel_left h2
  rcases splitext_ext_dotfree zp with h0 | ⟨mid, hm, hnd⟩
  · rw [h0] at hext
    exact absurd hext (by decide)
  · rw [hm] at hext
    have hde : (".edited.zip").data = '.' :: ("edited.zip").data := by decide
    rw [hde] at hext
    have hmid : ("edited.zip").data = mid := (List.cons.inj hext).2
    apply hnd
    rw [← hmid]
    decide
/-- Appending `.bak` changes the path. -/
theorem bakPath_ne (zp : List Char) : zp ++ (".bak").data ≠ zp := by
  intro h
  have := congrArg List.length h
  simp at this

/-- The `.edited.zip` sibling differs from the `.bak` backup path. -/
theorem editedPath_ne_bak (zp : List Char) :
    (splitext zp).1 ++ (".edited.zip").data ≠ zp ++ (".bak").data := by
  intro h
  have h1 : (splitext zp).1 ++ (".edited.zip").data =
      (splitext zp).1 ++ ((splitext zp).2 ++ (".bak").data) := by
    rw [← List.append_assoc, splitext_append]
    exact h
  have hext := List.append_cancel_left h1
  rcases splitext_ext_dotfree zp with h0 | ⟨mid, hm, hnd⟩
  · rw [h0] at hext
    exact absurd hext (by decide)
  · rw [hm] at hext
    have hed : (".edited.zip").data =
        '.' :: ("edited.zip").data := by decide
    rw [hed] at hext
    have h2 : ("edited.zip").data = mid ++ (".bak").data := by
      have := List.cons.inj hext
      simpa using this.2
    have h3 := congrArg List.reverse h2
    have hl : (("edited.zip").data).reverse =
        ['p', 'i', 'z', '.', 'd', 'e', 't', 'i', 'd', 'e'] := by decide
    have hr : ((".bak").data).reverse = ['k', 'a', 'b', '.'] := by decide
    rw [hl, List.reverse_append, hr] at h3
    have := List.cons.inj h3
    exact absurd this.1 (by decide)

@[simp] theorem fsSet_same (fs : FS) (p : List Char) (v : FileState) :
    fsSet fs p v p = v := by
  simp [fsSet]

theorem fsSet_other (fs : FS) (p : List Char) (v : FileState)
    (q : List Char) (h : q ≠ p) : fsSet fs p v q = fs q := by
  simp [fsSet, h]

/-- Evaluation of the backup-then-swap sequence at the two paths that
matter: afterwards the original path holds what was at the `.edited.zip`
path, and the `.bak` path holds what was at the original path. -/
theorem swapInPlace_eval (fs1 : FS) (zp ez : List Char)
    (h1 : ez ≠ zp) (h2 : ez ≠ zp ++ (".bak").data) :
    swapInPlace fs1 zp ez zp = fs1 ez ∧
    swapInPlace fs1 zp ez (zp ++ (".bak").data) = fs1 zp := by
  have hbak := bakPath_ne zp
  simp only [swapInPlace]
  constructor
  · rw [fsSet_other _ _ _ _ h1.symm, fsSet_same,
      fsSet_other _ _ _ _ h1, fsSet_other _ _ _ _ h2]
    split
    · rfl
    · rw [fsSet_other _ _ _ _ h2]
  · rw [fsSet_other _ _ _ _ h2.symm,
      fsSet_other _ _ _ _ hbak, fsSet_other _ _ _ _ hbak, fsSet_same]
    split
    · rfl
    · rw [fsSet_other _ _ _ _ (fun h => hbak h.symm)]

/-- C2.  With `--apply --in-place`: (a) if the freshly built replacement
fails validation the run records an error and leaves the original path's
content unchanged; (b) every error outcome leaves the original unchanged;
(c) the original path's content changes only when the run reports
`edited`, and then the built replacement passed validation, the original
content sits at the `.bak` path, and the validated replacement sits at the
original path. -/
theorem c2_inplace_safety (editDoc : List Nat → List Nat)
    (buildFile : List ZEntry → List (List Char × List Nat) → FileState)
    (scope : List (List Char)) (pp imi : Bool) (fs : FS) (zp : List Char) :
    (∀ es, fs zp = .zip es →
      filter_scope (list_infos es) scope pp imi ≠ [] →
      targetReadFails es (filter_scope (list_infos es) scope pp imi) =
        false →
      (validate_zip (buildFile es
        ((filter_scope (list_infos es) scope pp imi).map
          (fun ip => (ip, editDoc (readEntryData es ip)))))).1 = false →
      (editStepInPlace editDoc buildFile scope pp imi fs zp).2 = .error ∧
      (editStepInPlace editDoc buildFile scope pp imi fs zp).1 zp = fs zp) ∧
    ((editStepInPlace editDoc buildFile scope pp imi fs zp).2 = .error →
      (editStepInPlace editDoc buildFile scope pp imi fs zp).1 zp = fs zp) ∧
    ((editStepInPlace editDoc buildFile scope pp imi fs zp).1 zp ≠ fs zp →
      (editStepInPlace editDoc buildFile scope pp imi fs zp).2 = .edited ∧
      ∃ es, fs zp = .zip es ∧
        (validate_zip (buildFile es
          ((filter_scope (list_infos es) scope pp imi).map
            (fun ip => (ip, editDoc (readEntryData es ip)))))).1 = true ∧
        (editStepInPlace editDoc buildFile scope pp imi fs zp).1
          (zp ++ (".bak").data) = fs zp ∧
        (editStepInPlace editDoc buildFile scope pp imi fs zp).1 zp =
          buildFile es
            ((filter_scope (list_infos es) scope pp imi).map
              (fun ip => (ip, editDoc (readEntryData es ip))))) := by
  have hez := editedPath_ne zp
  have hezbak := editedPath_ne_bak zp
  cases hfz : fs zp with
  | absent =>
    simp only [editStepInPlace, hfz]
    refine ⟨?_, ?_, ?_⟩
    · intro es hes
      exact absurd hes (by simp)
    · intro _
      trivial
    · intro hne
      exact absurd rfl hne
  | corrupt =>
    simp only [editStepInPlace, hfz]
    refine ⟨?_, ?_, ?_⟩
    · intro es hes
      exact absurd hes (by simp)
    · intro _
      trivial
    · intro hne
      exact absurd rfl hne
  | zip es0 =>
    simp only [editStepInPlace, hfz]
    by_cases htg : filter_scope (list_infos es0) scope pp imi = []
    · simp only [if_pos htg]
      refine ⟨?_, ?_, ?_⟩
      · intro es hes htne _ _
        have hese : es0 = es := FileState.zip.inj hes
        subst hese
        exact absurd htg htne
      · intro hst
        exact absurd hst (by decide)
      · intro hne
        exact absurd hfz hne
    · simp only [if_neg htg]
      by_cases hrf : targetReadFails es0
          (filter_scope (list_infos es0) scope pp imi) = true
      · simp only [if_pos hrf]
        refine ⟨?_, ?_, ?_⟩
        · intro es hes _ hrf2 _
          have hese : es0 = es := FileState.zip.inj hes
          subst hese
          rw [hrf] at hrf2
          exact absurd hrf2 (by decide)
        · intro _
          exact hfz
        · intro hne
          exact absurd hfz hne
      · rw [Bool.not_eq_true] at hrf
        simp only [hrf, Bool.false_eq_true, if_false]
        by_cases hval : (validate_zip (fsSet fs
            ((splitext zp).1 ++ (".edited.zip").data)
            (buildFile es0
              ((filter_scope (list_infos es0) scope pp imi).map
                (fun ip => (ip, editDoc (readEntryData es0 ip)))))
            ((splitext zp).1 ++ (".edited.zip").data))).1 = true
        · simp only [if_pos hval]
          rw [fsSet_same] at hval
          have hsw := swapInPlace_eval (fsSet fs
            ((splitext zp).1 ++ (".edited.zip").data)
            (buildFile es0
              ((filter_scope (list_infos es0) scope pp imi).map
                (fun ip => (ip, editDoc (readEntryData es0 ip)))))) zp
            ((splitext zp).1 ++ (".edited.zip").data) hez hezbak
          refine ⟨?_, ?_, ?_⟩
          · intro es hes _ _ hvf
            have hese : es0 = es := FileState.zip.inj hes
            subst hese
            rw [hval] at hvf
            exact absurd hvf (by decide)
          · intro hst
            exact absurd hst (by decide)
          · intro _
            refine ⟨trivial, es0, rfl, hval, ?_, ?_⟩
            · rw [hsw.2, fsSet_other _ _ _ _ (fun h => hez h.symm)]
              exact hfz
            · rw [hsw.1, fsSet_same]
        · simp only [if_neg hval]
          rw [fsSet_same] at hval
          rw [Bool.not_eq_true] at hval
          refine ⟨?_, ?_, ?_⟩
          · intro es hes _ _ _
            have hese : es0 = es := FileState.zip.inj hes
            subst hese
            refine ⟨trivial, ?_⟩
            rw [fsSet_other _ _ _ _ (fun h => hez h.symm)]
            exact hfz
          · intro _
            rw [fsSet_other _ _ _ _ (fun h => hez h.symm)]
            exact hfz
          · intro hne
            rw [fsSet_other _ _ _ _ (fun h => hez h.symm)] at hne
            exact absurd hfz hne

/-- C9 counterexample.  The claim says an `app.json` nested deeper than
`ui/modules/apps/<name>/app.json` is not recognized; the scanner accepts
the six-component path `ui/modules/apps/foo/bar/app.json`. -/
theorem c9_ui_app_json_counterexample :
    matches_ui_app_json (("ui/modules/apps/foo/bar/app.json").data) = true ∧
    (List.splitOn '/'
      (("ui/modules/apps/foo/bar/app.json").data)).length = 6 := by
  decide

/-- C9 amended.  An entry path is recognized as a UI descriptor iff its
normalised form has at least five slash components, the first three equal
`ui`, `modules`, `apps` case-insensitively, and the last component equals
`app.json` case-insensitively (so any nesting depth of at least four below
the prefix is accepted). -/
theorem c9_ui_app_json_amended (path : List Char) :
    matches_ui_app_json path = true ↔
      (5 ≤ (List.splitOn '/' (lstripSlash (normSlash path))).length ∧
       lowerL ((List.splitOn '/' (lstripSlash (normSlash path))).getD 0 []) =
         ("ui").data ∧
       lowerL ((List.splitOn '/' (lstripSlash (normSlash path))).getD 1 []) =
         ("modules").data ∧
       lowerL ((List.splitOn '/' (lstripSlash (normSlash path))).getD 2 []) =
         ("apps").data ∧
       lowerL ((List.splitOn '/' (lstripSlash (normSlash path))).getLastD []) =
         ("app.json").data) := by
  rcases hsp : List.splitOn '/' (lstripSlash (normSlash path)) with
    _ | ⟨a, _ | ⟨b, _ | ⟨c, _ | ⟨d, _ | ⟨e, rest⟩⟩⟩⟩⟩
  · simp [matches_ui_app_json, hsp]
  · simp [matches_ui_app_json, hsp]
  · simp [matches_ui_app_json, hsp]
  · simp [matches_ui_app_json, hsp]
  · simp [matches_ui_app_json, hsp]
  · simp only [matches_ui_app_json, hsp]
    simp only [Bool.and_eq_true, decide_eq_true_eq, List.length_cons,
      List.getD_cons_zero, List.getD_cons_succ]
    constructor
    · rintro ⟨⟨⟨h1, h2⟩, h3⟩, h4⟩
      rw [List.getLast_eq_getLastD] at h4
      refine ⟨by omega, h1, h2, h3, ?_⟩
      rw [List.getLastD_cons, List.getLastD_cons, List.getLastD_cons,
        List.getLastD_cons, List.getLastD_cons]
      exact h4
    · rintro ⟨_, h1, h2, h3, h4⟩
      rw [List.getLastD_cons, List.getLastD_cons, List.getLastD_cons,
        List.getLastD_cons, List.getLastD_cons] at h4
      refine ⟨⟨⟨h1, h2⟩, h3⟩, ?_⟩
      rw [List.getLast_eq_getLastD]
      exact h4

/-- Witness for C1 at concrete inputs: the field value `"a\t\nbcdef"`
collapses to 7 characters, exceeds a budget of 4 and is emitted by the v3
sanitizer as exactly 4 characters, while `sanitize_with_tracking` at the
same budget emits the eight-char value `abcdefgh` as 6 characters. -/
theorem c1_cell_sanitizers_amended_witness :
    0 < 4 ∧
    ((("f").data, ("a\t\nbcdef").data) :: []).lookup (("f").data) =
      some (("a\t\nbcdef").data) ∧
    (sanitize_cell (("a\t\nbcdef").data) 4).1.length = 4 ∧
    (sanitize_with_tracking (fun _ => []) (Json.str (("abcdefgh").data))
      4).1.length = 4 + 2 := by
  have h := c1_cell_sanitizers_amended (("a\t\nbcdef").data) 4
    ((("f").data, ("a\t\nbcdef").data) :: []) (("f").data)
    (("a\t\nbcdef").data) (fun _ => []) (Json.str (("abcdefgh").data))
    (by decide) (by decide) (by decide)
  refine ⟨by decide, by decide, ?_, ?_⟩
  · exact (h.1.2.2.1 (by decide)).2.1
  · exact (h.2.2.2.1 (by decide)).2.2

/-- Witness for C2: a concrete archive, a builder that leaves a corrupt
file, validation fails, the status is `error` and the original archive's
content is unchanged. -/
theorem c2_inplace_safety_witness :
    (editStepInPlace id (fun _ _ => FileState.corrupt) c2scope false false
      c2fs c2zp).2 = EditStatus.error ∧
    (editStepInPlace id (fun _ _ => FileState.corrupt) c2scope false false
      c2fs c2zp).1 c2zp = c2fs c2zp :=
  (c2_inplace_safety id (fun _ _ => FileState.corrupt) c2scope false false
    c2fs c2zp).1 c2es (by decide) (by decide) (by decide) (by decide)

/-- Witness for C3: an archive with `levels`, `vehicles` and `mod_info`
metadata selects the levels-tagged set. -/
theorem c3_levels_priority_witness :
    (∃ nm ∈ c3Entries,
      ([] : List (List Char)).contains
        (top_level_from_internal (lstripSlash (normSlash nm))) = false ∧
      lowerL (basenameL (lstripSlash (normSlash nm))) = ("info.json").data ∧
      top_level_from_internal (lstripSlash (normSlash nm)) =
        ("levels").data) ∧
    select_jsons (collect_json_candidates c3Entries []).1
        (collect_json_candidates c3Entries []).2 =
      ((("levels").data),
        (collect_json_candidates c3Entries []).1.filter
          (fun p => decide (top_level_from_internal p = ("levels").data)) ++
        (collect_json_candidates c3Entries []).1.filter
          (fun p => decide (top_level_from_internal p = ("mod_info").data)),
        []) :=
  ⟨by decide,
    (c3_levels_priority c3Entries [] (by decide) (by decide)).1⟩

/-- The probing loop returns the first free candidate at or above the
start index, given some free candidate within the fuel bound. -/
theorem nextAux_spec (ex : List (List Char)) (path : List Char) :
    ∀ (fuel start k : Nat), start ≤ k → k < start + fuel →
    conflictCand path k ∉ ex →
    ∃ n, start ≤ n ∧ n ≤ k ∧
      nextAux ex path start fuel = some (conflictCand path n) ∧
      conflictCand path n ∉ ex ∧
      ∀ m, start ≤ m → m < n → conflictCand path m ∈ ex := by
  intro fuel
  induction fuel with
  | zero =>
    intro start k h1 h2 _
    exact absurd h1 (by omega)
  | succ fuel ih =>
    intro start k h1 h2 hfree
    by_cases hmem : conflictCand path start ∈ ex
    · have hks : start ≠ k := fun h => hfree (h ▸ hmem)
      obtain ⟨n, hn1, hn2, hn3, hn4, hn5⟩ :=
        ih (start + 1) k (by omega) (by omega) hfree
      refine ⟨n, by omega, hn2, ?_, hn4, ?_⟩
      · simp only [nextAux, if_pos hmem]
        exact hn3
      · intro m hm1 hm2
        rcases Nat.eq_or_lt_of_le hm1 with heq | hlt
        · exact heq ▸ hmem
        · exact hn5 m (by omega) hm2
    · refine ⟨start, le_refl _, h1, ?_, hmem, ?_⟩
      · simp only [nextAux, if_neg hmem]
      · intro m hm1 hm2
        exact absurd hm1 (by omega)

/-- C8.  The conflict resolver returns the target itself when it does not
exist; otherwise it returns the candidate `"<base> (n)<ext>"` for the
smallest `n ≥ 2` whose candidate does not exist, and that result never
collides with an existing path.  (Determinism is inherent: the embedding
is a pure function of the directory state.) -/
theorem c8_conflict_resolver (ex : List (List Char)) (path : List Char)
    (fuel k : Nat) (hk : 2 ≤ k) (hfree : conflictCand path k ∉ ex)
    (hfuel : k < 2 + fuel) :
    (path ∉ ex → next_nonconflicting ex path fuel = some path) ∧
    (path ∈ ex → ∃ n, 2 ≤ n ∧ n ≤ k ∧
      next_nonconflicting ex path fuel = some (conflictCand path n) ∧
      conflictCand path n ∉ ex ∧
      ∀ m, 2 ≤ m → m < n → conflictCand path m ∈ ex) := by
  constructor
  · intro hnp
    simp [next_nonconflicting, hnp]
  · intro hp
    obtain ⟨n, hn1, hn2, hn3, hn4, hn5⟩ :=
      nextAux_spec ex path fuel 2 k hk hfuel hfree
    refine ⟨n, hn1, hn2, ?_, hn4, hn5⟩
    simp only [next_nonconflicting, if_pos hp]
    exact hn3

/-- Each decoded-text attempt of the v3 parser returns: continue (`none`),
an empty result, or a mapping. -/
theorem tryParseText_cases (loads : List Char → Option Json)
    (text : List Char) :
    tryParseText loads text = none ∨ tryParseText loads text = some none ∨
    ∃ kvs, tryParseText loads text = some (some (Json.obj kvs)) := by
  unfold tryParseText
  cases loads text with
  | some j =>
    cases j
    case obj kvs => exact Or.inr (Or.inr ⟨kvs, rfl⟩)
    all_goals exact Or.inr (Or.inl rfl)
  | none =>
    cases loads (cleanup_json_blob text) with
    | some j =>
      cases j
      case obj kvs => exact Or.inr (Or.inr ⟨kvs, rfl⟩)
      all_goals exact Or.inr (Or.inl rfl)
    | none => exact Or.inl rfl

/-- C4 counterexample.  The renamer's `safe_load_json` returns the parsed
top-level value unchecked: on the bytes of `[1]` (where `json.loads`
yields the list `[1]`) it returns that list — neither a mapping nor an
empty result. -/
theorem c4_renamer_nonmapping_counterexample :
    renamer_safe_load_json c4loads c4raw = some (Json.arr [Json.num 1]) ∧
    renamer_safe_load_json c4loads c4raw ≠ none ∧
    (∀ kvs, renamer_safe_load_json c4loads c4raw ≠
      some (Json.obj kvs)) := by
  have h : renamer_safe_load_json c4loads c4raw =
      some (Json.arr [Json.num 1]) := rfl
  refine ⟨h, ?_, ?_⟩
  · rw [h]
    simp
  · intro kvs h2
    rw [h] at h2
    exact Json.noConfusion (Option.some.inj h2)

/-- C4 amended.  The v3 extractor's parser returns a mapping or `none`
for every input and every behaviour of the external `json.loads`; it
returns `none` whenever all four parse attempts raise, and whenever the
first successful parse yields a non-mapping.  The renamer's
`safe_load_json` lacks the mapping check (see the counterexample), but
its caller `read_json` coerces any non-mapping to the empty mapping. -/
theorem c4_parser_mapping_or_empty (loads : List Char → Option Json)
    (raw : List Nat) :
    (safe_load_json loads raw = none ∨
      ∃ kvs, safe_load_json loads raw = some (Json.obj kvs)) ∧
    ((loads (utf8DecodeReplace raw) = none ∧
      loads (cleanup_json_blob (utf8DecodeReplace raw)) = none ∧
      loads (latin1Decode raw) = none ∧
      loads (cleanup_json_blob (latin1Decode raw)) = none) →
      safe_load_json loads raw = none) ∧
    (∀ j, loads (utf8DecodeReplace raw) = some j →
      (∀ kvs, j ≠ Json.obj kvs) → safe_load_json loads raw = none) ∧
    (read_json_core loads raw = [] ∨
      ∃ kvs, renamer_safe_load_json loads raw = some (Json.obj kvs) ∧
        read_json_core loads raw = kvs) := by
  refine ⟨?_, ?_, ?_, ?_⟩
  · rcases tryParseText_cases loads (utf8DecodeReplace raw) with
      h | h | ⟨kvs, h⟩
    · rcases tryParseText_cases loads (latin1Decode raw) with
        h2 | h2 | ⟨kvs, h2⟩
      · left
        unfold safe_load_json
        rw [h, h2]
      · left
        unfold safe_load_json
        rw [h, h2]
      · right
        refine ⟨kvs, ?_⟩
        unfold safe_load_json
        rw [h, h2]
    · left
      unfold safe_load_json
      rw [h]
    · right
      refine ⟨kvs, ?_⟩
      unfold safe_load_json
      rw [h]
  · rintro ⟨ha, hb, hc, hd⟩
    unfold safe_load_json tryParseText
    rw [ha, hb, hc, hd]
  · intro j hj hno
    cases j with
    | obj kvs => exact absurd rfl (hno kvs)
    | null =>
      unfold safe_load_json tryParseText
      rw [hj]
    | bool b =>
      unfold safe_load_json tryParseText
      rw [hj]
    | num q =>
      unfold safe_load_json tryParseText
      rw [hj]
    | str s =>
      unfold safe_load_json tryParseText
      rw [hj]
    | arr xs =>
      unfold safe_load_json tryParseText
      rw [hj]
  · cases h : renamer_safe_load_json loads raw with
    | none =>
      left
      unfold read_json_core
      rw [h]
    | some j =>
      cases j
      case obj kvs =>
        right
        refine ⟨kvs, rfl, ?_⟩
        unfold read_json_core
        rw [h]
      all_goals refine Or.inl ?_
      all_goals unfold read_json_core
      all_goals rw [h]

/-- Witness for C4: with a `json.loads` that always raises, the v3 parser
returns `none` on any bytes. -/
theorem c4_parser_mapping_or_empty_witness :
    safe_load_json (fun _ => (none : Option Json)) [] = none :=
  (c4_parser_mapping_or_empty (fun _ => none) []).2.1 ⟨rfl, rfl, rfl, rfl⟩

/-- C5.  `cleanup_json_blob` on the text `\x7b"a": ",]", \x7d`, whose only
noise is the single trailing comma before the closing brace: the
comma-collapse regex also rewrites inside the string literal, producing
`\x7b"a": "]"\x7d` instead of the noise-stripped `\x7b"a": ",]"\x7d` —
so parsing the repaired text cannot equal parsing the noise-stripped
text.  The final conjunct shows the comma pass has reached its fixed
point on the output. -/
theorem c5_cleanup_corrupts_string_literal :
    cleanup_json_blob (("\x7b\"a\": \",]\", \x7d").data) =
      ("\x7b\"a\": \"]\"\x7d").data ∧
    ("\x7b\"a\": \"]\"\x7d").data ≠ ("\x7b\"a\": \",]\"\x7d").data ∧
    commaPass (cleanup_json_blob (("\x7b\"a\": \",]\", \x7d").data)) =
      cleanup_json_blob (("\x7b\"a\": \",]\", \x7d").data) := by
  decide

/-- C6 counterexample.  The value `2·10^12` lies outside the open
interval `(0, 32503680000)`, yet `parse_human_time` renders a date for it
(the range check applies to the value after the millisecond division, not
to the input value as the claim states). -/
theorem c6_range_check_counterexample :
    ¬(0 < (2000000000000 : ℚ) ∧ (2000000000000 : ℚ) < 32503680000) ∧
    parse_human_time (fun _ => Option.none) (PyVal.int 2000000000000) =
      ("2033-05-18 03:33:20 UTC").data ∧
    parse_human_time (fun _ => Option.none) (PyVal.int 2000000000000) ≠
      [] := by
  have heval : parse_human_time (fun _ => Option.none)
      (PyVal.int 2000000000000) = ("2033-05-18 03:33:20 UTC").data := by
    show (numRender ((2000000000000 : Int) : ℚ)).getD [] = _
    have hcast : ((2000000000000 : Int) : ℚ) = 2000000000000 := by
      norm_num
    have hdiv : (2000000000000 : ℚ) / 1000 = 2000000000 := by norm_num
    simp only [numRender, hcast, hdiv,
      if_pos (by norm_num : (2000000000000 : ℚ) > 1000000000000)]
    rw [if_pos (by norm_num :
      (0 : ℚ) < 2000000000 ∧ (2000000000 : ℚ) < 32503680000)]
    decide
  refine ⟨by decide, heval, ?_⟩
  rw [heval]
  decide

/-- C6 amended.  A numeric value above `10^12` is divided by 1000 before
the range check and rendering; a numeric value whose
millisecond-adjusted result lies outside `(0, 32503680000)` yields the
empty string; `1700000000` and `1700000000000` humanize to the identical
UTC rendering; a string that is neither numeric nor ISO-parseable yields
the empty string. -/
theorem c6_parse_human_time (fromiso : List Char → Option Int) (q : ℚ)
    (s : List Char) :
    (q > 1000000000000 →
      parse_human_time fromiso (PyVal.float q) =
        (if 0 < q / 1000 ∧ q / 1000 < 32503680000 then
          formatEpochUTC (Rat.floor (q / 1000)) else [])) ∧
    (¬(0 < (if q > 1000000000000 then q / 1000 else q) ∧
        (if q > 1000000000000 then q / 1000 else q) < 32503680000) →
      parse_human_time fromiso (PyVal.float q) = []) ∧
    parse_human_time fromiso (PyVal.int 1700000000) =
      ("2023-11-14 22:13:20 UTC").data ∧
    parse_human_time fromiso (PyVal.int 1700000000000) =
      ("2023-11-14 22:13:20 UTC").data ∧
    (numRegexMatches s = false → fromiso s = Option.none →
      parse_human_time fromiso (PyVal.str s) = []) := by
  refine ⟨?_, ?_, ?_, ?_, ?_⟩
  · intro hq
    simp only [parse_human_time, numRender, if_pos hq]
    by_cases hr : 0 < q / 1000 ∧ q / 1000 < 32503680000
    · rw [if_pos hr, if_pos hr]
      rfl
    · rw [if_neg hr, if_neg hr]
      rfl
  · intro hout
    by_cases hq : q > 1000000000000
    · rw [if_pos hq] at hout
      simp only [parse_human_time, numRender, if_pos hq, if_neg hout]
      rfl
    · rw [if_neg hq] at hout
      simp only [parse_human_time, numRender, if_neg hq, if_neg hout]
      rfl
  · show (numRender ((1700000000 : Int) : ℚ)).getD [] = _
    decide
  · show (numRender ((1700000000000 : Int) : ℚ)).getD [] = _
    have hcast : ((1700000000000 : Int) : ℚ) = 1700000000000 := by
      norm_num
    have hdiv : (1700000000000 : ℚ) / 1000 = 1700000000 := by norm_num
    simp only [numRender, hcast, hdiv,
      if_pos (by norm_num : (1700000000000 : ℚ) > 1000000000000)]
    rw [if_pos (by norm_num :
      (0 : ℚ) < 1700000000 ∧ (1700000000 : ℚ) < 32503680000)]
    decide
  · intro h1 h2
    simp only [parse_human_time, h1, Bool.false_eq_true, if_false, h2]

/-- Witness for C6: a negative value renders empty, and a string that is
neither numeric nor ISO renders empty. -/
theorem c6_parse_human_time_witness :
    parse_human_time (fun _ => Option.none) (PyVal.float (-1)) = [] ∧
    parse_human_time (fun _ => Option.none) (PyVal.str (("x").data)) =
      [] :=
  ⟨(c6_parse_human_time (fun _ => Option.none) (-1) (("x").data)).2.1
      (by decide),
   (c6_parse_human_time (fun _ => Option.none) (-1)
      (("x").data)).2.2.2.2 (by decide) rfl⟩

/-- C7.  On the document
`\x7b"Brand":"Ibishu","Body Style":"Sedan","Name":"Pessima"\x7d` and the
current filename `Pessima v2.zip`, the planner emits
`[vehicle][car][Ibishu][Sedan] Pessimav2.zip`: `guess_version` returns
the filename token without its separating space, so the planned name
differs from the documented `... Pessima v2.zip`. -/
theorem c7_vehicle_version_missing_space :
    plan_core c7entries (fun _ => c7doc) (("Pessima v2.zip").data) =
      (some (("[vehicle][car][Ibishu][Sedan] Pessimav2.zip").data),
        none) ∧
    guess_version (("Pessima v2.zip").data) c7doc = ("v2").data ∧
    ("[vehicle][car][Ibishu][Sedan] Pessimav2.zip").data ≠
      ("[vehicle][car][Ibishu][Sedan] Pessima v2.zip").data := by
  refine ⟨by decide, by decide, by decide⟩

/-- The first accumulator component after one scan step: the latest
`vehicles/.../info.json` seen. -/
theorem infoStep_fst (acc : Option (List Char) × Option (List Char))
    (nm : List Char) :
    (infoStep acc nm).1 =
      if isVehEntry nm = true then some (normSlash nm) else acc.1 := by
  by_cases h1 : isInfoJsonName nm = true
  · have hiff : isVehEntry nm = true ↔
        (1 < (List.splitOn '/' (normSlash nm)).length ∧
          lowerL ((List.splitOn '/' (normSlash nm)).getD 0 []) =
            ("vehicles").data) := by
      unfold isVehEntry
      rw [h1]
      simp only [Bool.true_and, decide_eq_true_eq]
    simp only [infoStep, if_pos h1]
    by_cases h2 : 1 < (List.splitOn '/' (normSlash nm)).length ∧
        lowerL ((List.splitOn '/' (normSlash nm)).getD 0 []) =
          ("vehicles").data
    · rw [if_pos (hiff.mpr h2)]
      by_cases h3 : 1 < (List.splitOn '/' (normSlash nm)).length ∧
          lowerL ((List.splitOn '/' (normSlash nm)).getD 0 []) =
            ("levels").data
      · rw [if_pos h3, if_pos h2]
      · rw [if_neg h3, if_pos h2]
    · rw [if_neg (fun hc => h2 (hiff.mp hc))]
      by_cases h3 : 1 < (List.splitOn '/' (normSlash nm)).length ∧
          lowerL ((List.splitOn '/' (normSlash nm)).getD 0 []) =
            ("levels").data
      · rw [if_pos h3, if_neg h2]
      · rw [if_neg h3, if_neg h2]
  · have hb : isInfoJsonName nm = false := by
      cases hx : isInfoJsonName nm
      · rfl
      · exact absurd hx h1
    have hnv : isVehEntry nm = false := by
      unfold isVehEntry
      rw [hb]
      rfl
    simp only [infoStep, hb, Bool.false_eq_true, if_false]
    rw [if_neg (by simp [hnv])]

/-- The scan's remembered vehicles path is the last matching entry (the
first match in reverse order). -/
theorem find_fold_fst (entries : List (List Char)) :
    ∀ acc : Option (List Char) × Option (List Char),
    (entries.foldl infoStep acc).1 =
      (match entries.reverse.find? isVehEntry with
       | some nm => some (normSlash nm)
       | none => acc.1) := by
  induction entries with
  | nil =>
    intro acc
    rfl
  | cons e t ih =>
    intro acc
    rw [List.foldl_cons, ih (infoStep acc e), List.reverse_cons,
      List.find?_append]
    cases h : t.reverse.find? isVehEntry with
    | some nm => simp [Option.or]
    | none =>
      simp only [Option.none_or]
      rw [infoStep_fst]
      by_cases hv : isVehEntry e = true
      · simp [List.find?, hv]
      · simp [List.find?, hv]

/-- C10.  When an archive holds `info.json` entries under both
`vehicles/` and `levels/`, `find_kind_and_info` classifies it as a
vehicle (the reverse of the extractor's levels-first priority), the
chosen document is the last vehicles `info.json` in entry order, and the
planner builds the vehicle-pattern name from that document. -/
theorem c10_renamer_vehicle_priority (entries : List (List Char))
    (readDoc : List Char → List (List Char × Json)) (bn : List Char)
    (hv : ∃ e ∈ entries, isVehEntry e = true)
    (_hl : ∃ e ∈ entries, isLevEntry e = true) :
    (find_kind_and_info entries).1 = some (("vehicle").data) ∧
    (find_kind_and_info entries).2 =
      (entries.reverse.find? isVehEntry).map normSlash ∧
    (∀ p, entries.reverse.find? isVehEntry = some p →
      plan_core entries readDoc bn =
        (build_vehicle_filename (vehicle_name (readDoc (normSlash p))).1
          (vehicle_name (readDoc (normSlash p))).2.1
          (vehicle_name (readDoc (normSlash p))).2.2
          (guess_version bn (readDoc (normSlash p))),
         if (build_vehicle_filename
            (vehicle_name (readDoc (normSlash p))).1
            (vehicle_name (readDoc (normSlash p))).2.1
            (vehicle_name (readDoc (normSlash p))).2.2
            (guess_version bn (readDoc (normSlash p)))).isSome then
          none
         else some (("insufficient metadata").data))) := by
  obtain ⟨e0, he0mem, he0⟩ := hv
  have hsome : (entries.reverse.find? isVehEntry).isSome :=
    List.find?_isSome.mpr ⟨e0, List.mem_reverse.mpr he0mem, he0⟩
  obtain ⟨p0, hp0⟩ := Option.isSome_iff_exists.mp hsome
  have hfold := find_fold_fst entries (none, none)
  rw [hp0] at hfold
  have hfk : find_kind_and_info entries =
      (some (("vehicle").data), some (normSlash p0)) := by
    simp only [find_kind_and_info]
    rw [hfold]
  refine ⟨by rw [hfk], ?_, ?_⟩
  · rw [hfk, hp0]
    rfl
  · intro p hp
    have hpp : p0 = p := Option.some.inj (hp0.symm.trans hp)
    subst hpp
    unfold plan_core
    rw [hfk]
    rfl

/-- Witness for C10: levels and two vehicles documents; the archive is
classified vehicle and the last vehicles `info.json` is chosen. -/
theorem c10_renamer_vehicle_priority_witness :
    (∃ e ∈ c10entries, isVehEntry e = true) ∧
    (∃ e ∈ c10entries, isLevEntry e = true) ∧
    (find_kind_and_info c10entries).1 = some (("vehicle").data) ∧
    (find_kind_and_info c10entries).2 =
      (c10entries.reverse.find? isVehEntry).map normSlash :=
  ⟨by decide, by decide,
   (c10_renamer_vehicle_priority c10entries (fun _ => c10doc)
     (("x.zip").data) (by decide) (by decide)).1,
   (c10_renamer_vehicle_priority c10entries (fun _ => c10doc)
     (("x.zip").data) (by decide) (by decide)).2.1⟩

/-- Witness for C8: the target and its `" (2)"` candidate exist, so the
resolver yields the `" (3)"` candidate. -/
theorem c8_conflict_resolver_witness :
    c8p ∈ c8ex ∧
    ∃ n, 2 ≤ n ∧ n ≤ 3 ∧
      next_nonconflicting c8ex c8p 5 = some (conflictCand c8p n) ∧
      conflictCand c8p n ∉ c8ex ∧
      ∀ m, 2 ≤ m → m < n → conflictCand c8p m ∈ c8ex :=
  ⟨by decide,
    (c8_conflict_resolver c8ex c8p 5 3 (by decide) (by decide)
      (by decide)).2 (by decide)⟩

end BeamNG
